import Mathlib

/-!
# Comment Validation & Sanitization Engine — formal model

A shallow embedding of the untrusted-input validation and sanitization core
of the zillow-commenter backend, together with proofs settling the claims of
the specification against it.

Sources embedded from the repository:
* `backend/api/models/v1_comments_structs.go` — the row/model converter
  (`CommentRowToComment`, `CommentToCommentRow`, `CommentRowsToComments`).
* `backend/api/server.go` — the `PostListingComment` validate → sanitize →
  re-validate pipeline.

Components whose Go sources are absent from the repository snapshot (only
their unit tests and call sites exist) are modelled from the specification,
each marked `Modelled from the spec:` in its doc comment:
the time-windowed identifier validator `customUUIDValidator`, the field
constraint validator `PostCommentParamsValidation`, the `Sanitize` method,
and the PII redactors `removeLinks`, `removeEmails`, `removePhoneNumbers`.
-/

set_option maxRecDepth 16384

namespace ZillowCommenter

/-! ## Postgres-facing value types

`pgtype.UUID` carries 16 raw bytes plus a validity flag; `pgtype.Numeric`
wraps an integer plus a validity flag (the rows produced and consumed by the
converter always have exponent 0, so the integer field alone is faithful). -/

structure PgUUID where
  bytes : List Nat
  valid : Bool
deriving DecidableEq, Repr

structure PgNumeric where
  int : Int
  valid : Bool
deriving DecidableEq, Repr

/-- The canonical domain record, from `models.Comment`
(`v1_comments_structs.go`). The identifier is kept as its 16 raw bytes
(`uuid.UUID` is a `[16]byte`). -/
structure Comment where
  targetListing : String
  commentID : List Nat
  userIP : String
  userID : String
  username : String
  commentText : String
  timestamp : Int
deriving DecidableEq, Repr

/-- A storage row, from `sqlc.GetCommentsByListingIDRow` (the `create`
result row `sqlc.PostCommentRow` has the identical field set). -/
structure GetCommentsByListingIDRow where
  commentID : PgUUID
  listingID : String
  userIp : String
  userID : String
  username : String
  commentText : String
  extract : PgNumeric
deriving DecidableEq, Repr

/-- The reference constant hard-coded in `CommentRowToComment`
(`v1_comments_structs.go` line 167): timestamps below it are rejected as
stale.  The code comment dates it to May 27th, 2025. -/
def converterReferenceInstant : Int := 1748389238

/-- Inbound converter, from `models.CommentRowToComment`
(`v1_comments_structs.go` lines 150–181): convert the identifier bytes via
`uuid.FromBytes` (which fails exactly when the byte slice is not 16 long),
require the numeric timestamp to be valid and at least the reference
constant, and build the `Comment`. -/
def CommentRowToComment (row : GetCommentsByListingIDRow) : Except String Comment :=
  if row.commentID.bytes.length ≠ 16 then
    Except.error "invalid comment ID format"
  else if ¬ row.extract.valid then
    Except.error "timestamp is not valid"
  else if row.extract.int < converterReferenceInstant then
    Except.error "timestamp is not valid"
  else
    Except.ok
      { targetListing := row.listingID
        commentID := row.commentID.bytes
        userIP := row.userIp
        userID := row.userID
        username := row.username
        commentText := row.commentText
        timestamp := row.extract.int }

/-- Outbound converter, from `models.CommentToCommentRow`
(`v1_comments_structs.go` lines 204–223): embed the identifier bytes with
the valid flag set and the timestamp as a valid numeric. -/
def CommentToCommentRow (comment : Comment) : GetCommentsByListingIDRow :=
  { commentID := { bytes := comment.commentID, valid := true }
    listingID := comment.targetListing
    userIp := comment.userIP
    userID := comment.userID
    username := comment.username
    commentText := comment.commentText
    extract := { int := comment.timestamp, valid := true } }

/-- Slice conversion, from `models.CommentRowsToComments`
(`v1_comments_structs.go` lines 184–194): convert rows in order; the first
failing row aborts the whole call with an error and no comments. -/
def CommentRowsToComments : List GetCommentsByListingIDRow → Except String (List Comment)
  | [] => Except.ok []
  | row :: rows =>
    match CommentRowToComment row with
    | Except.error e => Except.error e
    | Except.ok c =>
      match CommentRowsToComments rows with
      | Except.error e => Except.error e
      | Except.ok cs => Except.ok (c :: cs)

/-! ## Time-windowed identifier validator (§4.1)

Modelled from the spec: the Go source of `customUUIDValidator` is absent
from the repository snapshot; only its unit tests
(`sqlc_test.go` lines 1348–1437) and its invocation through
`PostCommentParamsValidation` survive.  The model follows §4.1: parse a
128-bit identifier, require the version nibble to be 7, extract the 48-bit
big-endian millisecond timestamp from the first 6 bytes, and require it to
lie between a fixed reference instant and `now` plus a skew allowance. -/

/-- A 128-bit unique identifier as 16 raw bytes (`uuid.UUID` is `[16]byte`). -/
structure MUUID where
  bytes : List Nat
deriving DecidableEq, Repr

/-- Well-formed identifier: 16 bytes, each below 256. -/
def MUUID.wf (u : MUUID) : Prop :=
  u.bytes.length = 16 ∧ ∀ b ∈ u.bytes, b < 256

instance (u : MUUID) : Decidable u.wf := by
  unfold MUUID.wf; infer_instance

/-- The version nibble: the high nibble of byte 6, per RFC 9562 (what
`uuid.UUID.Version()` returns). -/
def uuidVersion (u : MUUID) : Nat :=
  u.bytes.getD 6 0 / 16

/-- The embedded timestamp: the first 6 bytes, big-endian, milliseconds
since the epoch (what the repository's `getUUIDTimestamp` helper and the
test helper `newV7UUIDWithUnixTimestamp` read and write). -/
def uuidTimestampMs (u : MUUID) : Nat :=
  (u.bytes.take 6).foldl (fun acc b => acc * 256 + b) 0

/-- Modelled from the spec: the fixed reference instant of §4.1
("no legitimate identifier predates this moment"), in milliseconds.  The
validator's own tests place the allowed-past boundary at unix second
1748390000 — `TestCustomUUIDValidator_JustBeforeAllowedPast` requires
second 1748389990 to be rejected and
`TestCustomUUIDValidator_JustAfterAllowedPast` requires second 1748391000
to be accepted, and both test comments name
"Tue May 27 2025 23:53:20 GMT+0000 (unix 1748390000)" as the boundary. -/
def referenceInstantMs : Nat := 1748390000000

/-- Modelled from the spec: the clock-skew allowance of §4.1 ("on the order
of tens of minutes to a few hours"), in milliseconds.  One hour is
consistent with `TestCustomUUIDValidator_SlightlyInFuture`, which requires
a timestamp 11 hours ahead of `now` to be rejected. -/
def skewAllowanceMs : Nat := 3600000

/-- Identifier-validation errors, from the §4.1 / §7 error taxonomy. -/
inductive UUIDError
  | malformedIdentifier
  | wrongVersion
  | timestampTooOld
  | timestampTooNew
deriving DecidableEq, Repr

/-- Modelled from the spec: `customUUIDValidator` (§4.1).  Checks the
version nibble, then the time window, and on success returns the extracted
instant.  `nowMs` is the server wall clock at call time. -/
def customUUIDValidator (nowMs : Nat) (u : MUUID) : Except UUIDError Nat :=
  if uuidVersion u ≠ 7 then Except.error UUIDError.wrongVersion
  else if uuidTimestampMs u < referenceInstantMs then Except.error UUIDError.timestampTooOld
  else if nowMs + skewAllowanceMs < uuidTimestampMs u then Except.error UUIDError.timestampTooNew
  else Except.ok (uuidTimestampMs u)

/-! ## Textual identifier parsing

`PostCommentParamsValidation` receives the submitter identifier in textual
form and parses it (`uuid.Parse`) before handing it to the validator. -/

/-- Hexadecimal digit value, upper or lower case. -/
def hexVal (c : Char) : Option Nat :=
  if c.isDigit then some (c.toNat - 48)
  else if 'a' ≤ c ∧ c ≤ 'f' then some (c.toNat - 87)
  else if 'A' ≤ c ∧ c ≤ 'F' then some (c.toNat - 55)
  else none

/-- Decode consecutive hex-digit pairs into bytes. -/
def hexPairsToBytes : List Char → Option (List Nat)
  | [] => some []
  | hi :: lo :: rest => do
    let a ← hexVal hi
    let b ← hexVal lo
    let bs ← hexPairsToBytes rest
    pure ((a * 16 + b) :: bs)
  | _ => none

/-- Parse the canonical textual identifier form
`xxxxxxxx-xxxx-xxxx-xxxx-xxxxxxxxxxxx` (36 characters, dashes at positions
8, 13, 18 and 23) into 16 bytes, as `uuid.Parse` does for that form. -/
def parseUUID (s : String) : Option MUUID :=
  let cs := s.data
  if cs.length = 36 ∧ cs.getD 8 ' ' = '-' ∧ cs.getD 13 ' ' = '-' ∧
      cs.getD 18 ' ' = '-' ∧ cs.getD 23 ' ' = '-' then
    match hexPairsToBytes (((cs.enum).filter
        (fun p => p.1 ≠ 8 ∧ p.1 ≠ 13 ∧ p.1 ≠ 18 ∧ p.1 ≠ 23)).map (·.2)) with
    | some bs => some ⟨bs⟩
    | none => none
  else none

/-! ## Field constraint validator (§4.2)

Modelled from the spec: the Go source of `PostCommentParamsValidation` is
absent from the repository snapshot; only its unit tests
(`sqlc_test.go` lines 700–1342) and its registration in `server.go`
survive.  The model follows §4.2 field by field, reporting the first
violated constraint (either policy is acceptable per the spec). -/

/-- The submission record, from `sqlc.PostCommentParams` (the sqlc-generated
parameter struct for the `PostComment` query). -/
structure PostCommentParams where
  commentID : PgUUID
  listingID : String
  userIp : String
  userID : String
  username : String
  commentText : String
deriving DecidableEq, Repr

/-- Printable ASCII: code points 0x20–0x7E inclusive. -/
def printableChar (c : Char) : Bool :=
  32 ≤ c.toNat && c.toNat ≤ 126

/-- Split a character list on a separator character. -/
def splitOnChar (sep : Char) : List Char → List (List Char)
  | [] => [[]]
  | c :: rest =>
    if c = sep then [] :: splitOnChar sep rest
    else
      match splitOnChar sep rest with
      | [] => [[c]]
      | g :: gs => (c :: g) :: gs

/-- Decimal value of a digit run. -/
def decDigitsVal (cs : List Char) : Nat :=
  cs.foldl (fun acc c => acc * 10 + (c.toNat - 48)) 0

/-- Dotted-quad IPv4 textual form: four non-empty runs of at most three
digits, each with value at most 255, separated by dots. -/
def isIPv4 (s : String) : Bool :=
  match splitOnChar '.' s.data with
  | [a, b, c, d] =>
    [a, b, c, d].all fun p =>
      !p.isEmpty && decide (p.length ≤ 3) && p.all Char.isDigit &&
        decide (decDigitsVal p ≤ 255)
  | _ => false

/-- Uncompressed IPv6 textual form: eight non-empty groups of at most four
hex digits separated by colons. -/
def isIPv6 (s : String) : Bool :=
  let gs := splitOnChar ':' s.data
  decide (gs.length = 8) && gs.all fun g =>
    !g.isEmpty && decide (g.length ≤ 4) && g.all (fun c => (hexVal c).isSome)

/-- A valid network address is IPv4 or IPv6 textual form. -/
def isValidIP (s : String) : Bool :=
  isIPv4 s || isIPv6 s

/-- Field-validation errors, from the §4.2 / §7 error taxonomy; submitter
identifier failures carry the §4.1 error. -/
inductive FieldError
  | missingField
  | outOfRangeLength
  | invalidCharset
  | invalidNumericFormat
  | invalidNetworkAddress
  | identifierError (e : UUIDError)
deriving DecidableEq, Repr

/-- The §4.2 body-text constraints: required, 1–300 characters, printable
ASCII only. -/
def bodyCheck (body : String) : Except FieldError Unit :=
  if body.length < 1 then Except.error FieldError.outOfRangeLength
  else if 300 < body.length then Except.error FieldError.outOfRangeLength
  else if ¬ body.data.all printableChar then Except.error FieldError.invalidCharset
  else Except.ok ()

/-- Modelled from the spec: `PostCommentParamsValidation` (§4.2).
Comment identifier required (valid flag, 16 bytes); listing reference 1–20
characters, digits only; network address valid IPv4/IPv6; submitter
identifier parses and passes the §4.1 validator; display name 3–25
characters, alphanumeric; body text 1–300 characters, printable ASCII
only. -/
def PostCommentParamsValidation (nowMs : Nat) (p : PostCommentParams) :
    Except FieldError Unit :=
  if ¬ p.commentID.valid then Except.error FieldError.missingField
  else if p.commentID.bytes.length ≠ 16 then
    Except.error (FieldError.identifierError UUIDError.malformedIdentifier)
  else if p.listingID.length < 1 then Except.error FieldError.missingField
  else if 20 < p.listingID.length then Except.error FieldError.outOfRangeLength
  else if ¬ p.listingID.data.all Char.isDigit then
    Except.error FieldError.invalidNumericFormat
  else if ¬ isValidIP p.userIp then Except.error FieldError.invalidNetworkAddress
  else
    match parseUUID p.userID with
    | none => Except.error (FieldError.identifierError UUIDError.malformedIdentifier)
    | some u =>
      match customUUIDValidator nowMs u with
      | Except.error e => Except.error (FieldError.identifierError e)
      | Except.ok _ =>
        if p.username.length < 3 then Except.error FieldError.outOfRangeLength
        else if 25 < p.username.length then Except.error FieldError.outOfRangeLength
        else if ¬ p.username.data.all Char.isAlphanum then
          Except.error FieldError.invalidCharset
        else bodyCheck p.commentText

/-- All constraints except those on the body text hold: the submission is
otherwise valid. -/
def otherFieldsOk (nowMs : Nat) (p : PostCommentParams) : Prop :=
  p.commentID.valid = true ∧
  p.commentID.bytes.length = 16 ∧
  (1 ≤ p.listingID.length ∧ p.listingID.length ≤ 20 ∧
    p.listingID.data.all Char.isDigit = true) ∧
  isValidIP p.userIp = true ∧
  (∃ u, parseUUID p.userID = some u ∧
    customUUIDValidator nowMs u = Except.ok (uuidTimestampMs u)) ∧
  (3 ≤ p.username.length ∧ p.username.length ≤ 25 ∧
    p.username.data.all Char.isAlphanum = true)

/-! ## Content sanitizer (§4.3)

Modelled from the spec: the Go source of the `Sanitize` method on
`sqlc.PostCommentParams` is absent from the repository snapshot; only its
unit tests (`sqlc_test.go` lines 419–519) and its call site
(`server.go` line 322) survive.  §4.3 exempts the submitter network
address, but the repository's own tests (`TestSanitize_UserIp`,
`TestSanitize_UserIp_XSS`) require the policy to be applied to the
network-address field exactly as to the other fields, so the model applies
the supplied policy to all five client-facing string fields.  The policy
itself (`bluemonday.StrictPolicy`) is an external collaborator and is kept
abstract. -/
def Sanitize (policy : String → String) (p : PostCommentParams) : PostCommentParams :=
  { p with
    listingID := policy p.listingID
    userIp := policy p.userIp
    userID := policy p.userID
    username := policy p.username
    commentText := policy p.commentText }

/-- A minimal markup-stripping policy used as a concrete stand-in for the
strict policy in counterexamples: drops every `<`…`>` span.  On the
`TestSanitize_UserIp` vector it changes the network address, as the real
strict policy does. -/
def stripTagsGo : Bool → List Char → List Char
  | _, [] => []
  | _, '<' :: rest => stripTagsGo true rest
  | _, '>' :: rest => stripTagsGo false rest
  | true, _ :: rest => stripTagsGo true rest
  | false, c :: rest => c :: stripTagsGo false rest

/-- Strip-tags entry point on strings. -/
def stripTags (s : String) : String :=
  String.mk (stripTagsGo false s.data)

/-! ## Validation pipeline (§4.5)

From `server.go` `PostListingComment` (lines 271–375): first-pass
validation of the raw submission, sanitization, second-pass re-validation
of the sanitized submission, then hand-off to storage.  The validator and
sanitizer are taken as parameters (their Go sources live in the sqlc
package); storage is the list of rows already handed over. -/

/-- HTTP outcome of the handler: 201 Created or 400 Bad Request. -/
inductive PostOutcome
  | created
  | badRequest
deriving DecidableEq, Repr

/-- The `PostListingComment` pipeline: returns the outcome and the storage
state after the request.  A failure in either validation pass returns 400
and leaves storage untouched; only a submission passing both passes is
appended (sanitized) to storage. -/
def PostListingComment (validate : PostCommentParams → Except FieldError Unit)
    (sanitize : PostCommentParams → PostCommentParams)
    (stored : List PostCommentParams) (newComment : PostCommentParams) :
    PostOutcome × List PostCommentParams :=
  match validate newComment with
  | Except.error _ => (PostOutcome.badRequest, stored)
  | Except.ok _ =>
    let sanitized := sanitize newComment
    match validate sanitized with
    | Except.error _ => (PostOutcome.badRequest, stored)
    | Except.ok _ => (PostOutcome.created, stored ++ [sanitized])

/-! ## PII redactor (§4.4)

Modelled from the spec: the Go sources of `removeLinks`, `removeEmails`
and `removePhoneNumbers` are absent from the repository snapshot; only
their unit tests (`sqlc_test.go` lines 525–631) survive.  Each pass is a
regex-driven replacement: scan the body text left to right, and at each
position either replace a recognized occurrence with the fixed placeholder
and continue after it, or keep the character.  The three recognizers below
follow §4.4 and reproduce the unit-test vectors. -/

/-- The fixed link placeholder, `[link removed]`. -/
def replLink : List Char :=
  ['[', 'l', 'i', 'n', 'k', ' ', 'r', 'e', 'm', 'o', 'v', 'e', 'd', ']']

/-- The fixed email placeholder, `[email removed]`. -/
def replEmail : List Char :=
  ['[', 'e', 'm', 'a', 'i', 'l', ' ', 'r', 'e', 'm', 'o', 'v', 'e', 'd', ']']

/-- The fixed phone-number placeholder, `[phone number removed]`. -/
def replPhone : List Char :=
  ['[', 'p', 'h', 'o', 'n', 'e', ' ', 'n', 'u', 'm', 'b', 'e', 'r', ' ',
   'r', 'e', 'm', 'o', 'v', 'e', 'd', ']']

/-- Left-to-right scan with non-overlapping replacement, with explicit
fuel (one unit per consumed character suffices): at each position `m`
either recognizes an occurrence of length `n` (then the placeholder is
emitted and scanning resumes after the occurrence) or the character is
kept. -/
def scanGo (m : List Char → Option Nat) (repl : List Char) :
    Nat → List Char → List Char
  | _, [] => []
  | 0, cs => cs
  | fuel + 1, c :: cs =>
    match m (c :: cs) with
    | some n => repl ++ scanGo m repl fuel (cs.drop (n - 1))
    | none => c :: scanGo m repl fuel cs

/-- Left-to-right scan with non-overlapping replacement.  This is
`regexp.ReplaceAllString` for a recognizer `m`. -/
def scanRedact (m : List Char → Option Nat) (repl : List Char)
    (cs : List Char) : List Char :=
  scanGo m repl cs.length cs

/-! ### Email recognition -/

/-- Characters allowed in the local part of an address. -/
def localChar (c : Char) : Bool :=
  c.isAlphanum || c == '.' || c == '_' || c == '%' || c == '+' || c == '-'

/-- Characters allowed in the domain part of an address. -/
def domainChar (c : Char) : Bool :=
  c.isAlphanum || c == '.' || c == '-'

/-- Characters allowed in a top-level domain: letters. -/
def tldChar (c : Char) : Bool :=
  c.isAlpha

/-- Length of the letter run of `d` starting at index `i`. -/
def lettersFrom (d : List Char) (i : Nat) : Nat :=
  ((d.drop i).takeWhile tldChar).length

/-- Index `k` of `d` is a valid domain/TLD split point: a dot preceded by a
non-empty domain and followed by at least two letters. -/
def validDot (d : List Char) (k : Nat) : Bool :=
  decide (1 ≤ k) && decide (k < d.length) && (d.getD k ' ' == '.') &&
    decide (2 ≤ lettersFrom d (k + 1))

/-- Greedy domain/TLD split of a domain-character run `d`: the rightmost
valid split point wins (the regex backtracks its greedy domain
subexpression from the right), and the match extends over the whole letter
run after the dot.  Returns the number of characters of `d` consumed. -/
def emailSplit (d : List Char) : Option Nat :=
  match ((List.range d.length).filter (validDot d)).getLast? with
  | some k => some (k + 1 + lettersFrom d (k + 1))
  | none => none

/-- Email occurrence at the head of `cs`: a non-empty local-character run,
then `@`, then a domain-character run admitting a domain/TLD split (TLD of
at least two letters).  Returns the length of the occurrence. -/
def emailMatch (cs : List Char) : Option Nat :=
  if (cs.takeWhile localChar).isEmpty then none
  else
    match cs.dropWhile localChar with
    | '@' :: rest =>
      match emailSplit (rest.takeWhile domainChar) with
      | some n => some ((cs.takeWhile localChar).length + 1 + n)
      | none => none
    | _ => none

/-- Modelled from the spec: `removeEmails` (§4.4). -/
def removeEmails (s : String) : String :=
  String.mk (scanRedact emailMatch replEmail s.data)

/-! ### Link recognition -/

/-- The `https://` scheme prefix. -/
def httpsPre : List Char := ['h', 't', 't', 'p', 's', ':', '/', '/']

/-- The `http://` scheme prefix. -/
def httpPre : List Char := ['h', 't', 't', 'p', ':', '/', '/']

/-- The `www.` prefix. -/
def wwwPre : List Char := ['w', 'w', 'w', '.']

/-- Characters allowed in the domain/path/query/fragment token of a link.
A comma is not one, so punctuation adjacent to a link stays outside the
replacement. -/
def urlChar (c : Char) : Bool :=
  c.isAlphanum || c == '.' || c == '/' || c == '?' || c == '=' || c == '&' ||
    c == '#' || c == '%' || c == ':' || c == '_' || c == '-' || c == '~' ||
    c == '+'

/-- Remove trailing dots, so sentence-final punctuation stays outside the
replacement. -/
def stripTrailingDots (l : List Char) : List Char :=
  (l.reverse.dropWhile (fun c => c == '.')).reverse

/-- Link occurrence at the head of `cs`: an `https://` or `http://` scheme
followed by a possibly empty token, or a `www.` prefix followed by a
non-empty domain-like token (a bare `www.` is not a link). -/
def linkMatch (cs : List Char) : Option Nat :=
  if List.isPrefixOf httpsPre cs then
    some (8 + (stripTrailingDots ((cs.drop 8).takeWhile urlChar)).length)
  else if List.isPrefixOf httpPre cs then
    some (7 + (stripTrailingDots ((cs.drop 7).takeWhile urlChar)).length)
  else if List.isPrefixOf wwwPre cs then
    if (stripTrailingDots ((cs.drop 4).takeWhile urlChar)).isEmpty then none
    else some (4 + (stripTrailingDots ((cs.drop 4).takeWhile urlChar)).length)
  else none

/-- Modelled from the spec: `removeLinks` (§4.4). -/
def removeLinks (s : String) : String :=
  String.mk (scanRedact linkMatch replLink s.data)

/-! ### Phone-number recognition -/

/-- Group separators inside a phone number: space, dot, hyphen. -/
def sepChar (c : Char) : Bool :=
  c == ' ' || c == '.' || c == '-'

/-- Consume digit groups joined by single separators: returns the total
digit count and the consumed length.  The head must be a digit; a
separator is consumed only when a digit follows it, so trailing
punctuation stays outside. -/
def digitGroups : List Char → Nat × Nat
  | [] => (0, 0)
  | [c] => if c.isDigit then (1, 1) else (0, 0)
  | c :: c2 :: rest =>
    if c.isDigit then
      if c2.isDigit then
        let nm := digitGroups (c2 :: rest)
        (1 + nm.1, 1 + nm.2)
      else if sepChar c2 then
        match rest with
        | [] => (1, 1)
        | c3 :: _ =>
          if c3.isDigit then
            let nm := digitGroups rest
            (1 + nm.1, 2 + nm.2)
          else (1, 1)
      else (1, 1)
    else (0, 0)

/-- Digit groups, optionally after one leading separator (needed right
after a closing parenthesis). -/
def sepThenGroups (cs : List Char) : Nat × Nat :=
  match cs with
  | [] => (0, 0)
  | s :: rest =>
    if sepChar s then
      let nm := digitGroups rest
      if nm.1 = 0 then (0, 0) else (nm.1, nm.2 + 1)
    else digitGroups cs

/-- Phone-number occurrence without the optional leading `+`: either a
parenthesized digit group followed by further groups, or plain digit
groups, with at least 10 digits in total.  Returns the length consumed. -/
def phoneCore (cs : List Char) : Option Nat :=
  match cs with
  | '(' :: r =>
    if (r.takeWhile Char.isDigit).isEmpty then none
    else
      match r.dropWhile Char.isDigit with
      | ')' :: r2 =>
        if 10 ≤ (r.takeWhile Char.isDigit).length + (sepThenGroups r2).1 then
          some (1 + (r.takeWhile Char.isDigit).length + 1 + (sepThenGroups r2).2)
        else none
      | _ => none
  | _ =>
    if (digitGroups cs).1 = 0 then none
    else if 10 ≤ (digitGroups cs).1 then some (digitGroups cs).2
    else none

/-- Phone-number occurrence at the head of `cs`: an optional leading `+`,
then the core grouping with at least 10 digits in total.  Returns the
length of the occurrence. -/
def phoneMatch (cs : List Char) : Option Nat :=
  match cs with
  | '+' :: r => (phoneCore r).map (· + 1)
  | _ => phoneCore cs

/-- Modelled from the spec: `removePhoneNumbers` (§4.4). -/
def removePhoneNumbers (s : String) : String :=
  String.mk (scanRedact phoneMatch replPhone s.data)

/-! ### Redaction infrastructure for the idempotence proofs -/

/-- `Redact repl t u`: `u` is `t` with some non-overlapping, non-empty
segments replaced by `repl`.  Every scan output is related to its input
this way. -/
inductive Redact (repl : List Char) : List Char → List Char → Prop
  | nil : Redact repl [] []
  | keep (c : Char) {t u : List Char} : Redact repl t u → Redact repl (c :: t) (c :: u)
  | subst {seg t u : List Char} (hseg : seg ≠ []) :
      Redact repl t u → Redact repl (seg ++ t) (repl ++ u)

/-- No occurrence is recognized at any position of `cs`. -/
def MatchFree (m : List Char → Option Nat) (cs : List Char) : Prop :=
  ∀ i : Nat, m (cs.drop i) = none

/-! ## Concrete fixtures used by witnesses and counterexamples -/

/-- A version-7 identifier whose embedded timestamp is
`0x019800000000 = 1752346656768` ms (mid-July 2025, inside the window). -/
def uuidV7Ex : MUUID :=
  ⟨[1, 152, 0, 0, 0, 0, 113, 0, 128, 0, 0, 0, 0, 0, 0, 0]⟩

/-- A version-4 identifier with the same embedded timestamp bytes. -/
def uuidV4Ex : MUUID :=
  ⟨[1, 152, 0, 0, 0, 0, 65, 0, 128, 0, 0, 0, 0, 0, 0, 0]⟩

/-- A wall-clock instant, in ms, equal to the embedded timestamp of
`uuidV7Ex`. -/
def nowMsEx : Nat := 1752346656768

/-- A submission identical in shape to the repository's
`validPostCommentParams(ValidParamsIPv4)` fixture, with the submitter
identifier spelling out `uuidV7Ex`. -/
def paramsEx : PostCommentParams :=
  { commentID := { bytes := [0, 1, 2, 3, 4, 5, 6, 7, 8, 9, 10, 11, 12, 13, 14, 15],
                   valid := true }
    listingID := "123456"
    userIp := "192.168.1.1"
    userID := "01980000-0000-7100-8000-000000000000"
    username := "TestUser"
    commentText := "This is a valid comment." }

/-- A well-formed canonical record, timestamp just above the converter's
reference constant (the shape of the repository's `defaultComment`
fixture). -/
def commentEx : Comment :=
  { targetListing := "listing"
    commentID := [0, 1, 2, 3, 4, 5, 6, 7, 8, 9, 10, 11, 12, 13, 14, 15]
    userIP := "ip"
    userID := "user"
    username := "name"
    commentText := "text"
    timestamp := 1748389239 }

/-- A convertible storage row (the shape of the repository's
`defaultCommentRow` fixture). -/
def goodRowEx : GetCommentsByListingIDRow :=
  { commentID := { bytes := [0, 1, 2, 3, 4, 5, 6, 7, 8, 9, 10, 11, 12, 13, 14, 15],
                   valid := true }
    listingID := "listing"
    userIp := "ip"
    userID := "user"
    username := "name"
    commentText := "text"
    extract := { int := 1748389239, valid := true } }

/-- A row whose numeric timestamp is flagged invalid (the shape of the bad
row in `TestCommentRowsToComments_InvalidRow`). -/
def badRowEx : GetCommentsByListingIDRow :=
  { goodRowEx with extract := { int := 1, valid := false } }

/-- A row carrying the valid timestamp 1748389500: at or above the
converter's constant 1748389238 but below the §4.1 validator's reference
instant (second 1748390000). -/
def staleRowEx : GetCommentsByListingIDRow :=
  { goodRowEx with extract := { int := 1748389500, valid := true } }

/-- Decidable equality for `Except`, so concrete validator and converter
results can be checked by `decide`. -/
instance {ε α : Type} [DecidableEq ε] [DecidableEq α] :
    DecidableEq (Except ε α) := fun a b =>
  match a, b with
  | Except.ok x, Except.ok y =>
    if h : x = y then isTrue (by rw [h]) else isFalse (by intro hc; cases hc; exact h rfl)
  | Except.error x, Except.error y =>
    if h : x = y then isTrue (by rw [h]) else isFalse (by intro hc; cases hc; exact h rfl)
  | Except.ok _, Except.error _ => isFalse (by intro hc; cases hc)
  | Except.error _, Except.ok _ => isFalse (by intro hc; cases hc)

/-! ## Theorems settling the claims -/

/-- C1: for every version-7 identifier, the time-windowed validator accepts
(returning the extracted instant) exactly when the embedded millisecond
timestamp is at least the fixed reference instant and at most the current
time plus the skew allowance. -/
theorem c1_validator_accepts_iff_window (nowMs : Nat) (u : MUUID)
    (h7 : uuidVersion u = 7) :
    customUUIDValidator nowMs u = Except.ok (uuidTimestampMs u) ↔
      (referenceInstantMs ≤ uuidTimestampMs u ∧
        uuidTimestampMs u ≤ nowMs + skewAllowanceMs) := by
  unfold customUUIDValidator
  rw [if_neg (by simp [h7])]
  split_ifs with h1 h2
  · simp only [reduceCtorEq, false_iff]
    omega
  · simp only [reduceCtorEq, false_iff]
    omega
  · simp only [true_iff]
    omega

/-- Witness for C1 at the concrete fixture: `uuidV7Ex` is version 7, its
timestamp lies in the window at `nowMsEx`, and the validator accepts it. -/
theorem c1_witness :
    customUUIDValidator nowMsEx uuidV7Ex = Except.ok (uuidTimestampMs uuidV7Ex) :=
  (c1_validator_accepts_iff_window nowMsEx uuidV7Ex (by decide)).mpr (by decide)

/-- C2: every well-formed identifier whose version nibble is not 7 is
rejected with `WrongVersion`, whatever its embedded timestamp and whatever
the current time. -/
theorem c2_wrong_version_rejected (nowMs : Nat) (u : MUUID) (_hwf : u.wf)
    (h7 : uuidVersion u ≠ 7) :
    customUUIDValidator nowMs u = Except.error UUIDError.wrongVersion := by
  unfold customUUIDValidator
  rw [if_pos h7]

/-- Witness for C2 at the concrete fixture: `uuidV4Ex` is well-formed, has
version 4, and is rejected with `WrongVersion`. -/
theorem c2_witness :
    customUUIDValidator nowMsEx uuidV4Ex = Except.error UUIDError.wrongVersion :=
  c2_wrong_version_rejected nowMsEx uuidV4Ex (by decide) (by decide)

/-- Under `otherFieldsOk`, validation reduces to the body-text checks. -/
theorem validation_reduces_to_body (nowMs : Nat) (p : PostCommentParams)
    (h : otherFieldsOk nowMs p) :
    PostCommentParamsValidation nowMs p = bodyCheck p.commentText := by
  obtain ⟨h1, h2, ⟨h3a, h3b, h3c⟩, h4, ⟨u, hu, huv⟩, h6a, h6b, h6c⟩ := h
  unfold PostCommentParamsValidation
  rw [if_neg (by simp [h1]), if_neg (by omega), if_neg (by omega),
    if_neg (by omega), if_neg (by simp [h3c]), if_neg (by simp [h4])]
  simp only [hu, huv]
  rw [if_neg (by omega), if_neg (by omega), if_neg (by simp [h6c])]

/-- `otherFieldsOk` ignores the body text. -/
theorem otherFieldsOk_update_body (nowMs : Nat) (p : PostCommentParams)
    (body : String) (h : otherFieldsOk nowMs p) :
    otherFieldsOk nowMs { p with commentText := body } := h

/-- C3: for a submission whose other fields are valid, a body of exactly
300 printable-ASCII characters passes validation, any 301-character body
fails, and any body containing a control character (C0 range or DEL)
fails. -/
theorem c3_body_rules (nowMs : Nat) (p : PostCommentParams)
    (h : otherFieldsOk nowMs p) :
    (∀ body : String, body.length = 300 → body.data.all printableChar = true →
      PostCommentParamsValidation nowMs { p with commentText := body } =
        Except.ok ()) ∧
    (∀ body : String, body.length = 301 →
      PostCommentParamsValidation nowMs { p with commentText := body } ≠
        Except.ok ()) ∧
    (∀ (body : String) (c : Char), c ∈ body.data →
      (c.toNat < 32 ∨ c.toNat = 127) →
      PostCommentParamsValidation nowMs { p with commentText := body } ≠
        Except.ok ()) := by
  have hupd : ∀ body : String,
      ({ p with commentText := body } : PostCommentParams).commentText = body :=
    fun _ => rfl
  refine ⟨?_, ?_, ?_⟩
  · intro body hlen hprint
    rw [validation_reduces_to_body nowMs _ (otherFieldsOk_update_body nowMs p body h),
      hupd body]
    unfold bodyCheck
    rw [if_neg (by omega), if_neg (by omega), if_neg (by simp [hprint])]
  · intro body hlen
    rw [validation_reduces_to_body nowMs _ (otherFieldsOk_update_body nowMs p body h),
      hupd body]
    unfold bodyCheck
    rw [if_neg (by omega), if_pos (by omega)]
    exact fun hc => by cases hc
  · intro body c hc hctl
    rw [validation_reduces_to_body nowMs _ (otherFieldsOk_update_body nowMs p body h),
      hupd body]
    have hnp : printableChar c = false := by
      unfold printableChar
      rcases hctl with hlt | heq
      · simp only [Bool.and_eq_false_iff, decide_eq_false_iff_not]
        left; omega
      · simp only [Bool.and_eq_false_iff, decide_eq_false_iff_not]
        right; omega
    have hall : body.data.all printableChar = false := by
      simp only [List.all_eq_false]
      exact ⟨c, hc, by simp [hnp]⟩
    have hlen1 : 1 ≤ body.length := by
      have : body.data ≠ [] := fun hnil => by rw [hnil] at hc; cases hc
      have hpos : 0 < body.data.length := List.length_pos.mpr this
      exact hpos
    unfold bodyCheck
    by_cases hlong : 300 < body.length
    · rw [if_neg (by omega), if_pos hlong]
      exact fun hx => by cases hx
    · rw [if_neg (by omega), if_neg hlong, if_pos (by simp [hall])]
      exact fun hx => by cases hx

/-- The `otherFieldsOk` evidence for the concrete fixture `paramsEx`. -/
theorem paramsEx_otherFieldsOk : otherFieldsOk nowMsEx paramsEx :=
  ⟨by decide, by decide, ⟨by decide, by decide, by decide⟩, by decide,
    ⟨⟨[1, 152, 0, 0, 0, 0, 113, 0, 128, 0, 0, 0, 0, 0, 0, 0]⟩, by decide, by decide⟩,
    by decide, by decide, by decide⟩

/-- Witness for C3 at the concrete fixture: a 300-character printable body
passes validation for the otherwise-valid submission `paramsEx`. -/
theorem c3_witness :
    PostCommentParamsValidation nowMsEx
      { paramsEx with commentText := String.mk (List.replicate 300 'a') } =
      Except.ok () :=
  (c3_body_rules nowMsEx paramsEx paramsEx_otherFieldsOk).1
    (String.mk (List.replicate 300 'a')) (by decide) (by decide)

/-- C4: a submission rejected by the pipeline (either validation pass
failing) leaves the stored-comment state unchanged: nothing is handed to
storage. -/
theorem c4_rejected_leaves_storage (validate : PostCommentParams → Except FieldError Unit)
    (sanitize : PostCommentParams → PostCommentParams)
    (stored : List PostCommentParams) (p : PostCommentParams)
    (h : (PostListingComment validate sanitize stored p).fst = PostOutcome.badRequest) :
    (PostListingComment validate sanitize stored p).snd = stored := by
  unfold PostListingComment at h ⊢
  cases h1 : validate p with
  | error e => simp [h1]
  | ok _ =>
    cases h2 : validate (sanitize p) with
    | error e => simp [h1, h2]
    | ok _ => simp [h1, h2] at h

/-- Witness for C4: a failing first validation pass leaves an empty store
empty. -/
theorem c4_witness :
    (PostListingComment (fun _ => Except.error FieldError.invalidCharset)
      id [] paramsEx).snd = [] :=
  c4_rejected_leaves_storage _ _ _ _ rfl

/-- C5: converting a well-formed `Comment` (16 identifier bytes, timestamp
at or above the converter's reference constant) to a row and back succeeds
and reproduces the whole record — in particular the identifier and listing
reference; and for any row the converter accepts, converting the resulting
comment back to a row reproduces the row's identifier bytes and listing
reference exactly. -/
theorem c5_roundtrip :
    (∀ c : Comment, c.commentID.length = 16 →
      converterReferenceInstant ≤ c.timestamp →
      CommentRowToComment (CommentToCommentRow c) = Except.ok c) ∧
    (∀ (row : GetCommentsByListingIDRow) (c : Comment),
      CommentRowToComment row = Except.ok c →
      (CommentToCommentRow c).commentID.bytes = row.commentID.bytes ∧
      (CommentToCommentRow c).listingID = row.listingID) := by
  constructor
  · intro c h16 hts
    unfold CommentRowToComment CommentToCommentRow
    rw [if_neg (by simp [h16]), if_neg (by simp), if_neg (by simp; omega)]
  · intro row c h
    unfold CommentRowToComment at h
    split_ifs at h with h1 h2 h3
    cases h
    exact ⟨rfl, rfl⟩

/-- Witness for C5: the round trip at the concrete fixture `commentEx`. -/
theorem c5_witness :
    CommentRowToComment (CommentToCommentRow commentEx) = Except.ok commentEx :=
  c5_roundtrip.1 commentEx (by decide) (by decide)

/-- C6 counterexample: the claim ties the converter's staleness cutoff to
the §4.1 validator's reference instant, but the row `staleRowEx`, whose
timestamp (second 1748389500) is strictly below that reference instant
(second 1748390000, `referenceInstantMs`), is accepted by the converter —
because the converter hard-codes the different constant 1748389238. -/
theorem c6_counterexample :
    (∃ c, CommentRowToComment staleRowEx = Except.ok c ∧
      c.timestamp = 1748389500) ∧
    1748389500 * 1000 < referenceInstantMs := by
  constructor
  · exact ⟨{ targetListing := "listing"
             commentID := [0, 1, 2, 3, 4, 5, 6, 7, 8, 9, 10, 11, 12, 13, 14, 15]
             userIP := "ip"
             userID := "user"
             username := "name"
             commentText := "text"
             timestamp := 1748389500 }, by decide, rfl⟩
  · decide

/-- C6 as amended: for a row with 16 identifier bytes and a valid numeric
timestamp, conversion fails exactly when the timestamp is below the
converter's own constant 1748389238 (`converterReferenceInstant`) — which
is 762 seconds earlier than the §4.1 validator's reference instant — and
otherwise yields a `Comment` carrying that timestamp. -/
theorem c6_stale_cutoff (row : GetCommentsByListingIDRow)
    (h16 : row.commentID.bytes.length = 16) (hv : row.extract.valid = true) :
    ((∃ e, CommentRowToComment row = Except.error e) ↔
      row.extract.int < converterReferenceInstant) ∧
    (converterReferenceInstant ≤ row.extract.int →
      CommentRowToComment row = Except.ok
        { targetListing := row.listingID
          commentID := row.commentID.bytes
          userIP := row.userIp
          userID := row.userID
          username := row.username
          commentText := row.commentText
          timestamp := row.extract.int }) := by
  unfold CommentRowToComment
  rw [if_neg (by simp [h16]), if_neg (by simp [hv])]
  constructor
  · constructor
    · intro ⟨e, he⟩
      by_contra hge
      rw [if_neg hge] at he
      cases he
    · intro hlt
      exact ⟨_, by rw [if_pos hlt]⟩
  · intro hge
    rw [if_neg (by omega)]

/-- Witness for C6 (amended): at the concrete fixture `staleRowEx` the
timestamp is at least the converter constant and conversion succeeds with
that timestamp. -/
theorem c6_witness :
    CommentRowToComment staleRowEx = Except.ok
      { targetListing := staleRowEx.listingID
        commentID := staleRowEx.commentID.bytes
        userIP := staleRowEx.userIp
        userID := staleRowEx.userID
        username := staleRowEx.username
        commentText := staleRowEx.commentText
        timestamp := staleRowEx.extract.int } :=
  (c6_stale_cutoff staleRowEx (by decide) (by decide)).2 (by decide)

/-- C7 counterexample: the claim exempts the network address from
sanitization, but on the `TestSanitize_UserIp` shape of input the
sanitizer changes the network-address field: applying `Sanitize` with a
markup-stripping policy to a submission whose address carries a script tag
does not leave the field unchanged. -/
theorem c7_counterexample :
    (Sanitize stripTags
      { paramsEx with userIp := "<script>alert(1)</script>192.168.1.1" }).userIp ≠
      "<script>alert(1)</script>192.168.1.1" := by
  decide

/-- C7 as amended: the sanitizer applies the policy to all five
client-facing string fields — listing reference, network address,
submitter identifier, display name and body text — as the repository's
sanitization tests require; in particular the network address is sanitized
rather than left unchanged, as the concrete evaluation shows. -/
theorem c7_sanitize_applies_to_all_fields (policy : String → String)
    (p : PostCommentParams) :
    (Sanitize policy p).listingID = policy p.listingID ∧
    (Sanitize policy p).userIp = policy p.userIp ∧
    (Sanitize policy p).userID = policy p.userID ∧
    (Sanitize policy p).username = policy p.username ∧
    (Sanitize policy p).commentText = policy p.commentText :=
  ⟨rfl, rfl, rfl, rfl, rfl⟩

/-- C9: email redaction replaces a TLD of at least two letters with the
placeholder, preserves trailing punctuation outside the replacement, and
leaves one-letter TLDs untouched — on the specification's vectors. -/
theorem c9_email_vectors :
    removeEmails "Edge case: a@b.c" = "Edge case: a@b.c" ∧
    removeEmails "test@example.com" = "[email removed]" ∧
    removeEmails "user@domain.com." = "[email removed]." ∧
    removeEmails "user@domain.com!" = "[email removed]!" ∧
    removeEmails "user@domain.c" = "user@domain.c" ∧
    removeEmails "Send to john.doe@company.co.uk" = "Send to [email removed]" := by
  refine ⟨?_, ?_, ?_, ?_, ?_, ?_⟩ <;> decide

/-- C10: slice conversion is all-or-nothing — a successful call converts
every row in order, and any failing row anywhere in the slice makes the
whole call fail with an error and no comments at all. -/
theorem c10_rows_all_or_nothing :
    (∀ (rows : List GetCommentsByListingIDRow) (cs : List Comment),
      CommentRowsToComments rows = Except.ok cs →
      List.Forall₂ (fun r c => CommentRowToComment r = Except.ok c) rows cs) ∧
    (∀ (rows : List GetCommentsByListingIDRow) (r : GetCommentsByListingIDRow),
      r ∈ rows → (∃ e, CommentRowToComment r = Except.error e) →
      ∃ e, CommentRowsToComments rows = Except.error e) := by
  constructor
  · intro rows
    induction rows with
    | nil =>
      intro cs h
      cases h
      exact List.Forall₂.nil
    | cons row rest ih =>
      intro cs h
      unfold CommentRowsToComments at h
      cases h1 : CommentRowToComment row with
      | error e => rw [h1] at h; cases h
      | ok c =>
        rw [h1] at h
        cases h2 : CommentRowsToComments rest with
        | error e => rw [h2] at h; cases h
        | ok cs2 =>
          rw [h2] at h
          cases h
          exact List.Forall₂.cons h1 (ih cs2 h2)
  · intro rows
    induction rows with
    | nil =>
      intro r hr
      cases hr
    | cons row rest ih =>
      intro r hr ⟨e, he⟩
      unfold CommentRowsToComments
      rcases List.mem_cons.mp hr with rfl | hmem
      · rw [he]
        exact ⟨e, rfl⟩
      · cases h1 : CommentRowToComment row with
        | error e2 => exact ⟨e2, rfl⟩
        | ok c =>
          obtain ⟨e3, he3⟩ := ih r hmem ⟨e, he⟩
          rw [he3]
          exact ⟨e3, rfl⟩

/-- Witness for C10: the concrete two-row slice of
`TestCommentRowsToComments_InvalidRow` — a convertible row followed by a
row with an invalid timestamp — fails as a whole. -/
theorem c10_witness :
    ∃ e, CommentRowsToComments [goodRowEx, badRowEx] = Except.error e :=
  c10_rows_all_or_nothing.2 [goodRowEx, badRowEx] badRowEx (by simp)
    ⟨"timestamp is not valid", by decide⟩

/-! ### List utilities for the redaction proofs -/

theorem tw_append_pos {p : Char → Bool} {a : List Char} (b : List Char)
    (h : a.all p = true) : (a ++ b).takeWhile p = a ++ b.takeWhile p := by
  induction a with
  | nil => simp
  | cons c a ih =>
    simp only [List.all_cons, Bool.and_eq_true] at h
    simp [List.takeWhile_cons, h.1, ih h.2]

theorem tw_append_neg {p : Char → Bool} {a : List Char} (b : List Char)
    (h : a.all p = false) : (a ++ b).takeWhile p = a.takeWhile p := by
  induction a with
  | nil => simp at h
  | cons c a ih =>
    simp only [List.all_cons, Bool.and_eq_false_iff] at h
    rcases h with h | h
    · simp [List.takeWhile_cons, h]
    · cases hc : p c with
      | false => simp [List.takeWhile_cons, hc]
      | true => simp [List.takeWhile_cons, hc, ih h]

theorem dw_append_pos {p : Char → Bool} {a : List Char} (b : List Char)
    (h : a.all p = true) : (a ++ b).dropWhile p = b.dropWhile p := by
  induction a with
  | nil => simp
  | cons c a ih =>
    simp only [List.all_cons, Bool.and_eq_true] at h
    simp [List.dropWhile_cons, h.1, ih h.2]

theorem dw_append_neg {p : Char → Bool} {a : List Char} (b : List Char)
    (h : a.all p = false) : (a ++ b).dropWhile p = a.dropWhile p ++ b := by
  induction a with
  | nil => simp at h
  | cons c a ih =>
    simp only [List.all_cons, Bool.and_eq_false_iff] at h
    rcases h with h | h
    · simp [List.dropWhile_cons, h]
    · cases hc : p c with
      | false => simp [List.dropWhile_cons, hc]
      | true => simp [List.dropWhile_cons, hc, ih h]

theorem dw_cons_of_all_false {p : Char → Bool} {a : List Char}
    (h : a.all p = false) :
    ∃ x v, a.dropWhile p = x :: v ∧ p x = false := by
  have hne : a.dropWhile p ≠ [] := by
    intro hnil
    rw [List.dropWhile_eq_nil_iff] at hnil
    rw [List.all_eq_false] at h
    obtain ⟨x, hx, hpx⟩ := h
    exact hpx (hnil x hx)
  obtain ⟨x, v, hxv⟩ := List.exists_cons_of_ne_nil hne
  refine ⟨x, v, hxv, ?_⟩
  have := List.head_dropWhile_not p a (by simp [hxv])
  simpa [hxv] using this

theorem tw_len_mono {p : Char → Bool} (a b : List Char) :
    (a.takeWhile p).length ≤ ((a ++ b).takeWhile p).length := by
  cases h : a.all p with
  | true =>
    rw [tw_append_pos b h, List.takeWhile_eq_self_iff.mpr (List.all_eq_true.mp h)]
    simp
  | false => rw [tw_append_neg b h]

/-! ### Generic scanner lemmas -/

/-- `Redact` is reflexive: keeping every character. -/
theorem redact_refl (repl : List Char) : ∀ cs, Redact repl cs cs := by
  intro cs
  induction cs with
  | nil => exact Redact.nil
  | cons c cs ih => exact Redact.keep c ih

/-- Every scan output is a redaction of its input. -/
theorem redact_scanGo (m : List Char → Option Nat) (repl : List Char) :
    ∀ fuel cs, Redact repl cs (scanGo m repl fuel cs) := by
  intro fuel
  induction fuel with
  | zero =>
    intro cs
    cases cs with
    | nil => exact Redact.nil
    | cons c cs => exact redact_refl repl (c :: cs)
  | succ fuel ih =>
    intro cs
    cases cs with
    | nil => exact Redact.nil
    | cons c cs =>
      show Redact repl (c :: cs)
        (match m (c :: cs) with
          | some n => repl ++ scanGo m repl fuel (cs.drop (n - 1))
          | none => c :: scanGo m repl fuel cs)
      cases hm : m (c :: cs) with
      | some n =>
        have hsplit : c :: cs = (c :: cs.take (n - 1)) ++ cs.drop (n - 1) := by
          simp [List.take_append_drop]
        rw [hsplit]
        exact Redact.subst (by simp) (ih (cs.drop (n - 1)))
      | none => exact Redact.keep c (ih cs)

/-- Scanning a match-free list is the identity. -/
theorem scanGo_id_of_matchFree (m : List Char → Option Nat) (repl : List Char) :
    ∀ fuel cs, MatchFree m cs → scanGo m repl fuel cs = cs := by
  intro fuel
  induction fuel with
  | zero =>
    intro cs _
    cases cs <;> rfl
  | succ fuel ih =>
    intro cs hfree
    cases cs with
    | nil => rfl
    | cons c cs =>
      have h0 : m (c :: cs) = none := by simpa using hfree 0
      show (match m (c :: cs) with
        | some n => repl ++ scanGo m repl fuel (cs.drop (n - 1))
        | none => c :: scanGo m repl fuel cs) = c :: cs
      rw [h0]
      have hcs : MatchFree m cs := fun i => by simpa using hfree (i + 1)
      rw [ih cs hcs]

/-- Transfer of no-match through redaction of the tail: if no occurrence
starts at the head of `v ++ t`, none starts at the head of `v ++ u` for
any redaction `u` of `t`.  Uses the extension property of the recognizer:
an occurrence cut off by the placeholder's opening bracket extends to any
continuation. -/
theorem match_none_redact (m : List Char → Option Nat) (b : Char) (r : List Char)
    (hext : ∀ v w wp, m (v ++ b :: w) ≠ none → m (v ++ wp) ≠ none) :
    ∀ t u, Redact (b :: r) t u → ∀ v, m (v ++ t) = none → m (v ++ u) = none := by
  intro t u hred
  induction hred with
  | nil => exact fun v h => h
  | keep c hred ih =>
    intro v h
    have := ih (v ++ [c]) (by simpa using h)
    simpa using this
  | subst hseg hred _ =>
    intro v h
    by_contra hc
    rename_i seg t' u' _
    have hne : m (v ++ b :: (r ++ u')) ≠ none := by simpa using hc
    exact (hext v (r ++ u') (seg ++ t') hne) (by simpa using h)

/-- The scan output is match-free, given that the recognizer never fires
inside the placeholder and satisfies the extension property. -/
theorem scanGo_matchFree (m : List Char → Option Nat) (b : Char) (r : List Char)
    (hnil : m [] = none)
    (hinert : ∀ i t, i < (b :: r).length → m ((b :: r).drop i ++ t) = none)
    (hext : ∀ v w wp, m (v ++ b :: w) ≠ none → m (v ++ wp) ≠ none) :
    ∀ fuel cs, cs.length ≤ fuel → MatchFree m (scanGo m (b :: r) fuel cs) := by
  intro fuel
  induction fuel with
  | zero =>
    intro cs hlen
    have : cs = [] := List.eq_nil_of_length_eq_zero (Nat.le_zero.mp hlen)
    subst this
    intro i
    simpa [scanGo] using hnil
  | succ fuel ih =>
    intro cs hlen
    cases cs with
    | nil =>
      intro i
      simpa [scanGo] using hnil
    | cons c cs =>
      show MatchFree m
        (match m (c :: cs) with
          | some n => (b :: r) ++ scanGo m (b :: r) fuel (cs.drop (n - 1))
          | none => c :: scanGo m (b :: r) fuel cs)
      cases hm : m (c :: cs) with
      | some n =>
        have hsub : MatchFree m (scanGo m (b :: r) fuel (cs.drop (n - 1))) := by
          apply ih
          have : (cs.drop (n - 1)).length ≤ cs.length := by
            simp only [List.length_drop]; omega
          simp only [List.length_cons] at hlen
          omega
        intro i
        by_cases hi : i < (b :: r).length
        · rw [List.drop_append_of_le_length (Nat.le_of_lt hi)]
          exact hinert i _ hi
        · have hsplit : i = (b :: r).length + (i - (b :: r).length) := by omega
          rw [hsplit, List.drop_append]
          exact hsub _
      | none =>
        have hcs : MatchFree m (scanGo m (b :: r) fuel cs) := by
          apply ih
          simp only [List.length_cons] at hlen
          omega
        intro i
        cases i with
        | zero =>
          simp only [List.drop_zero]
          have hred : Redact (b :: r) cs (scanGo m (b :: r) fuel cs) :=
            redact_scanGo m (b :: r) fuel cs
          have := match_none_redact m b r hext cs _ hred [c] (by simpa using hm)
          simpa using this
        | succ j =>
          simp only [List.drop_succ_cons]
          exact hcs j

/-- Idempotence of the scan, from the placeholder-inertness and extension
properties of the recognizer. -/
theorem scanRedact_idem (m : List Char → Option Nat) (b : Char) (r : List Char)
    (hnil : m [] = none)
    (hinert : ∀ i t, i < (b :: r).length → m ((b :: r).drop i ++ t) = none)
    (hext : ∀ v w wp, m (v ++ b :: w) ≠ none → m (v ++ wp) ≠ none)
    (cs : List Char) :
    scanRedact m (b :: r) (scanRedact m (b :: r) cs) = scanRedact m (b :: r) cs := by
  unfold scanRedact
  exact scanGo_id_of_matchFree m (b :: r) _ _
    (scanGo_matchFree m b r hnil hinert hext cs.length cs (Nat.le_refl _))

/-! ### Email recognizer: inertness and extension -/

theorem emailMatch_nil : emailMatch [] = none := rfl

/-- No occurrence starts inside a local-character run that ends at a
non-`@` character. -/
theorem emailMatch_none_of_blocked (pre : List Char) (x : Char) (t : List Char)
    (hpre : pre.all localChar = true) (hx : localChar x = false) (hxa : x ≠ '@') :
    emailMatch (pre ++ x :: t) = none := by
  have hl : (pre ++ x :: t).takeWhile localChar = pre := by
    rw [tw_append_pos _ hpre, List.takeWhile_cons]
    simp [hx]
  have hd : (pre ++ x :: t).dropWhile localChar = x :: t := by
    rw [dw_append_pos _ hpre, List.dropWhile_cons]
    simp [hx]
  unfold emailMatch
  rw [hl, hd]
  by_cases hemp : pre.isEmpty
  · rw [if_pos hemp]
  · rw [if_neg hemp]
    split
    · rename_i rest heq
      injection heq with h1 _
      exact absurd h1 hxa
    · rfl

/-- `emailSplit` fails exactly when no index is a valid domain/TLD split. -/
theorem es_none_iff (d : List Char) :
    emailSplit d = none ↔ ∀ k, validDot d k = false := by
  unfold emailSplit
  constructor
  · intro h k
    by_contra hk
    have hk' : validDot d k = true := by simpa using hk
    have hklen : k < d.length := by
      unfold validDot at hk'
      simp only [Bool.and_eq_true, decide_eq_true_eq] at hk'
      exact hk'.1.1.2
    have hmem : k ∈ (List.range d.length).filter (validDot d) := by
      rw [List.mem_filter]
      exact ⟨List.mem_range.mpr hklen, hk'⟩
    rcases hlast : ((List.range d.length).filter (validDot d)).getLast? with _ | k'
    · rw [List.getLast?_eq_none_iff] at hlast
      rw [hlast] at hmem
      cases hmem
    · rw [hlast] at h
      cases h
  · intro h
    have hsplit : (List.range d.length).filter (validDot d) = [] :=
      List.filter_eq_nil_iff.mpr (fun k _ => by simp [h k])
    rw [hsplit]
    rfl

/-- A valid split point survives extending the domain run to the right. -/
theorem validDot_append {d : List Char} {k : Nat} (e : List Char)
    (h : validDot d k = true) : validDot (d ++ e) k = true := by
  unfold validDot at h ⊢
  simp only [Bool.and_eq_true, decide_eq_true_eq, beq_iff_eq] at h ⊢
  obtain ⟨⟨⟨h1, h2⟩, h3⟩, h4⟩ := h
  refine ⟨⟨⟨h1, by rw [List.length_append]; omega⟩, ?_⟩, ?_⟩
  · rw [List.getD_eq_getElem?_getD] at h3 ⊢
    rw [List.getElem?_append_left h2]
    exact h3
  · unfold lettersFrom at h4 ⊢
    rw [List.drop_append_of_le_length h2]
    calc 2 ≤ ((d.drop (k + 1)).takeWhile tldChar).length := h4
    _ ≤ _ := tw_len_mono _ _

/-- `emailSplit` succeeding on a run still succeeds on any extension. -/
theorem es_mono {d : List Char} (e : List Char) (h : emailSplit d ≠ none) :
    emailSplit (d ++ e) ≠ none := by
  intro hc
  apply h
  rw [es_none_iff] at hc ⊢
  intro k
  by_contra hk
  have hk' : validDot d k = true := by simpa using hk
  have hke := validDot_append e hk'
  rw [hc k] at hke
  cases hke

/-- Extension property of the email recognizer: an occurrence cut off by
the placeholder's opening bracket extends to any continuation. -/
theorem emailMatch_ext (v w wp : List Char)
    (h : emailMatch (v ++ '[' :: w) ≠ none) : emailMatch (v ++ wp) ≠ none := by
  cases hall : v.all localChar with
  | true =>
    exfalso
    apply h
    have hl : (v ++ '[' :: w).takeWhile localChar = v := by
      rw [tw_append_pos _ hall, List.takeWhile_cons]
      simp [show localChar '[' = false from by decide]
    have hd : (v ++ '[' :: w).dropWhile localChar = '[' :: w := by
      rw [dw_append_pos _ hall, List.dropWhile_cons]
      simp [show localChar '[' = false from by decide]
    unfold emailMatch
    rw [hl, hd]
    by_cases hemp : v.isEmpty
    · rw [if_pos hemp]
    · rw [if_neg hemp]
      rfl
  | false =>
    obtain ⟨x, v', hdw, hx⟩ := dw_cons_of_all_false hall
    have hd1 : (v ++ '[' :: w).dropWhile localChar = x :: (v' ++ '[' :: w) := by
      rw [dw_append_neg _ hall, hdw]
      simp
    have hd2 : (v ++ wp).dropWhile localChar = x :: (v' ++ wp) := by
      rw [dw_append_neg _ hall, hdw]
      simp
    have hl1 : (v ++ '[' :: w).takeWhile localChar = v.takeWhile localChar :=
      tw_append_neg _ hall
    have hl2 : (v ++ wp).takeWhile localChar = v.takeWhile localChar :=
      tw_append_neg _ hall
    by_cases hxat : x = '@'
    · subst hxat
      unfold emailMatch at h
      rw [hl1, hd1] at h
      by_cases hemp : (v.takeWhile localChar).isEmpty
      · rw [if_pos hemp] at h
        exact absurd rfl h
      · rw [if_neg hemp] at h
        have h' : (match emailSplit ((v' ++ '[' :: w).takeWhile domainChar) with
          | some n => some ((v.takeWhile localChar).length + 1 + n)
          | none => none) ≠ none := h
        cases hes : emailSplit ((v' ++ '[' :: w).takeWhile domainChar) with
        | none =>
          rw [hes] at h'
          exact absurd rfl h'
        | some n =>
          have hmono : emailSplit ((v' ++ wp).takeWhile domainChar) ≠ none := by
            cases hall2 : v'.all domainChar with
            | true =>
              have e1 : (v' ++ '[' :: w).takeWhile domainChar = v' := by
                rw [tw_append_pos _ hall2, List.takeWhile_cons]
                simp [show domainChar '[' = false from by decide]
              have e2 : (v' ++ wp).takeWhile domainChar =
                  v' ++ wp.takeWhile domainChar := tw_append_pos _ hall2
              rw [e2]
              apply es_mono
              rw [← e1, hes]
              simp
            | false =>
              have e1 : (v' ++ '[' :: w).takeWhile domainChar =
                  v'.takeWhile domainChar := tw_append_neg _ hall2
              have e2 : (v' ++ wp).takeWhile domainChar =
                  v'.takeWhile domainChar := tw_append_neg _ hall2
              rw [e2, ← e1, hes]
              simp
          unfold emailMatch
          rw [hl2, if_neg hemp, hd2]
          show (match emailSplit ((v' ++ wp).takeWhile domainChar) with
            | some n => some ((v.takeWhile localChar).length + 1 + n)
            | none => none) ≠ none
          cases hes2 : emailSplit ((v' ++ wp).takeWhile domainChar) with
          | none => exact absurd hes2 hmono
          | some k => simp
    · exfalso
      apply h
      unfold emailMatch
      rw [hl1]
      by_cases hemp : (v.takeWhile localChar).isEmpty
      · rw [if_pos hemp]
      · rw [if_neg hemp, hd1]
        split
        · rename_i rest heq
          injection heq with h1 _
          exact absurd h1 hxat
        · rfl

/-- The email recognizer never fires inside the email placeholder. -/
theorem emailInert :
    ∀ i t, i < replEmail.length → emailMatch (replEmail.drop i ++ t) = none := by
  intro i t hi
  have hi' : i < 15 := by simpa [replEmail] using hi
  interval_cases i
  · exact emailMatch_none_of_blocked [] '[' _ (by decide) (by decide) (by decide)
  · exact emailMatch_none_of_blocked ['e', 'm', 'a', 'i', 'l'] ' ' _
      (by decide) (by decide) (by decide)
  · exact emailMatch_none_of_blocked ['m', 'a', 'i', 'l'] ' ' _
      (by decide) (by decide) (by decide)
  · exact emailMatch_none_of_blocked ['a', 'i', 'l'] ' ' _
      (by decide) (by decide) (by decide)
  · exact emailMatch_none_of_blocked ['i', 'l'] ' ' _
      (by decide) (by decide) (by decide)
  · exact emailMatch_none_of_blocked ['l'] ' ' _
      (by decide) (by decide) (by decide)
  · exact emailMatch_none_of_blocked [] ' ' _ (by decide) (by decide) (by decide)
  · exact emailMatch_none_of_blocked ['r', 'e', 'm', 'o', 'v', 'e', 'd'] ']' _
      (by decide) (by decide) (by decide)
  · exact emailMatch_none_of_blocked ['e', 'm', 'o', 'v', 'e', 'd'] ']' _
      (by decide) (by decide) (by decide)
  · exact emailMatch_none_of_blocked ['m', 'o', 'v', 'e', 'd'] ']' _
      (by decide) (by decide) (by decide)
  · exact emailMatch_none_of_blocked ['o', 'v', 'e', 'd'] ']' _
      (by decide) (by decide) (by decide)
  · exact emailMatch_none_of_blocked ['v', 'e', 'd'] ']' _
      (by decide) (by decide) (by decide)
  · exact emailMatch_none_of_blocked ['e', 'd'] ']' _
      (by decide) (by decide) (by decide)
  · exact emailMatch_none_of_blocked ['d'] ']' _
      (by decide) (by decide) (by decide)
  · exact emailMatch_none_of_blocked [] ']' _ (by decide) (by decide) (by decide)

/-! ### Link recognizer: inertness and extension -/

theorem linkMatch_nil : linkMatch [] = none := rfl

/-- No link occurrence starts at a character other than `h` or `w`. -/
theorem linkMatch_none_of_head (c : Char) (h1 : c ≠ 'h') (h2 : c ≠ 'w')
    (t : List Char) : linkMatch (c :: t) = none := by
  have hh : ('h' == c) = false := beq_false_of_ne (Ne.symm h1)
  have hw : ('w' == c) = false := beq_false_of_ne (Ne.symm h2)
  simp [linkMatch, httpsPre, httpPre, wwwPre, List.isPrefixOf, hh, hw]

/-- A prefix check that succeeds against a list with a barrier character
the prefix does not contain is already satisfied before the barrier. -/
theorem prefix_of_append_barrier (pre : List Char) (x : Char) :
    ∀ v w, List.isPrefixOf pre (v ++ x :: w) = true → x ∉ pre → pre <+: v := by
  induction pre with
  | nil => intro v w _ _; exact List.nil_prefix
  | cons p ps ih =>
    intro v w hpre hx
    cases v with
    | nil =>
      exfalso
      simp only [List.nil_append, List.isPrefixOf, Bool.and_eq_true,
        beq_iff_eq] at hpre
      exact hx (by simp [hpre.1])
    | cons a v2 =>
      simp only [List.cons_append, List.isPrefixOf, Bool.and_eq_true,
        beq_iff_eq] at hpre
      rw [List.cons_prefix_cons]
      exact ⟨hpre.1, ih v2 w hpre.2 (fun hmem => hx (List.mem_cons_of_mem p hmem))⟩

/-- The stripped token is empty exactly when every character is a dot. -/
theorem std_isEmpty_iff (a : List Char) :
    (stripTrailingDots a).isEmpty = true ↔ a.all (fun c => c == '.') = true := by
  unfold stripTrailingDots
  rw [List.isEmpty_iff, List.reverse_eq_nil_iff, List.dropWhile_eq_nil_iff]
  simp [List.all_eq_true]

/-- A non-empty stripped token survives extending the token. -/
theorem std_ne_mono {a b : List Char} (hab : a <+: b)
    (h : ¬ (stripTrailingDots a).isEmpty = true) :
    ¬ (stripTrailingDots b).isEmpty = true := by
  intro hc
  apply h
  rw [std_isEmpty_iff] at hc ⊢
  rw [List.all_eq_true] at hc ⊢
  exact fun x hx => hc x (hab.subset hx)

/-- Extension property of the link recognizer. -/
theorem linkMatch_ext (v w wp : List Char)
    (h : linkMatch (v ++ '[' :: w) ≠ none) : linkMatch (v ++ wp) ≠ none := by
  by_cases hps : List.isPrefixOf httpsPre (v ++ '[' :: w) = true
  · have hpv : httpsPre <+: v :=
      prefix_of_append_barrier httpsPre '[' v w hps (by decide)
    have hps2 : List.isPrefixOf httpsPre (v ++ wp) = true :=
      List.isPrefixOf_iff_prefix.mpr (hpv.trans (List.prefix_append v wp))
    intro hc
    unfold linkMatch at hc
    rw [if_pos hps2] at hc
    cases hc
  · by_cases hp : List.isPrefixOf httpPre (v ++ '[' :: w) = true
    · have hpv : httpPre <+: v :=
        prefix_of_append_barrier httpPre '[' v w hp (by decide)
      have hp2 : List.isPrefixOf httpPre (v ++ wp) = true :=
        List.isPrefixOf_iff_prefix.mpr (hpv.trans (List.prefix_append v wp))
      have hns : ¬ List.isPrefixOf httpsPre (v ++ wp) = true := by
        intro hy
        have hy' : httpsPre <+: v ++ wp := List.isPrefixOf_iff_prefix.mp hy
        have hp' : httpPre <+: v ++ wp := List.isPrefixOf_iff_prefix.mp hp2
        rcases List.prefix_or_prefix_of_prefix hy' hp' with hcase | hcase
        · exact absurd hcase (by decide)
        · exact absurd hcase (by decide)
      intro hc
      unfold linkMatch at hc
      rw [if_neg hns, if_pos hp2] at hc
      cases hc
    · by_cases hw : List.isPrefixOf wwwPre (v ++ '[' :: w) = true
      · have hpv : wwwPre <+: v :=
          prefix_of_append_barrier wwwPre '[' v w hw (by decide)
        have hw2 : List.isPrefixOf wwwPre (v ++ wp) = true :=
          List.isPrefixOf_iff_prefix.mpr (hpv.trans (List.prefix_append v wp))
        have hns : ¬ List.isPrefixOf httpsPre (v ++ wp) = true := by
          intro hy
          have hy' : httpsPre <+: v ++ wp := List.isPrefixOf_iff_prefix.mp hy
          have hw' : wwwPre <+: v ++ wp := List.isPrefixOf_iff_prefix.mp hw2
          rcases List.prefix_or_prefix_of_prefix hy' hw' with hcase | hcase
          · exact absurd hcase (by decide)
          · exact absurd hcase (by decide)
        have hnp : ¬ List.isPrefixOf httpPre (v ++ wp) = true := by
          intro hy
          have hy' : httpPre <+: v ++ wp := List.isPrefixOf_iff_prefix.mp hy
          have hw' : wwwPre <+: v ++ wp := List.isPrefixOf_iff_prefix.mp hw2
          rcases List.prefix_or_prefix_of_prefix hy' hw' with hcase | hcase
          · exact absurd hcase (by decide)
          · exact absurd hcase (by decide)
        have h4 : 4 ≤ v.length := by
          have := hpv.length_le
          simpa [wwwPre] using this
        have hdrop1 : (v ++ '[' :: w).drop 4 = v.drop 4 ++ '[' :: w :=
          List.drop_append_of_le_length h4
        have hdrop2 : (v ++ wp).drop 4 = v.drop 4 ++ wp :=
          List.drop_append_of_le_length h4
        unfold linkMatch at h
        rw [if_neg hps, if_neg hp, if_pos hw, hdrop1] at h
        by_cases hemp : (stripTrailingDots ((v.drop 4 ++ '[' :: w).takeWhile
            urlChar)).isEmpty = true
        · rw [if_pos hemp] at h
          exact absurd rfl h
        · have htok : (v.drop 4 ++ '[' :: w).takeWhile urlChar <+:
              (v.drop 4 ++ wp).takeWhile urlChar := by
            cases hall : (v.drop 4).all urlChar with
            | true =>
              have e1 : (v.drop 4 ++ '[' :: w).takeWhile urlChar = v.drop 4 := by
                rw [tw_append_pos _ hall, List.takeWhile_cons]
                simp [show urlChar '[' = false from by decide]
              have e2 : (v.drop 4 ++ wp).takeWhile urlChar =
                  v.drop 4 ++ wp.takeWhile urlChar := tw_append_pos _ hall
              rw [e1, e2]
              exact List.prefix_append _ _
            | false =>
              rw [tw_append_neg _ hall, tw_append_neg _ hall]
          have hemp2 := std_ne_mono htok hemp
          intro hc
          unfold linkMatch at hc
          rw [if_neg hns, if_neg hnp, if_pos hw2, hdrop2, if_neg hemp2] at hc
          cases hc
      · exfalso
        apply h
        unfold linkMatch
        rw [if_neg hps, if_neg hp, if_neg hw]

/-- The link recognizer never fires inside the link placeholder. -/
theorem linkInert :
    ∀ i t, i < replLink.length → linkMatch (replLink.drop i ++ t) = none := by
  intro i t hi
  have hi' : i < 14 := by simpa [replLink] using hi
  interval_cases i <;>
    exact linkMatch_none_of_head _ (by decide) (by decide) _

/-! ### Phone recognizer: inertness and extension -/

theorem phoneMatch_nil : phoneMatch [] = none := rfl

/-- Digit-group consumption is void when the head is not a digit. -/
theorem dg_head_not_digit {c : Char} (h : c.isDigit = false) (t : List Char) :
    digitGroups (c :: t) = (0, 0) := by
  cases t with
  | nil => simp [digitGroups, h]
  | cons c2 rest => simp [digitGroups, h]

/-- Digit-group consumption counts at least one digit when the head is a
digit. -/
theorem dg_pos {c : Char} (h : c.isDigit = true) (t : List Char) :
    1 ≤ (digitGroups (c :: t)).1 := by
  cases t with
  | nil => simp [digitGroups, h]
  | cons c2 rest =>
    unfold digitGroups
    rw [if_pos h]
    by_cases h2 : c2.isDigit
    · simp [h2]
    · rw [if_neg (by simp [h2])]
      by_cases hs : sepChar c2
      · rw [if_pos hs]
        cases rest with
        | nil => simp
        | cons c3 r3 =>
          by_cases h3 : c3.isDigit
          · simp [h3]
          · simp [h3]
      · rw [if_neg hs]

/-- `digitGroups` on two leading digits. -/
theorem dg_dd {c c2 : Char} (hc : c.isDigit = true) (hc2 : c2.isDigit = true)
    (rest : List Char) :
    digitGroups (c :: c2 :: rest) =
      (1 + (digitGroups (c2 :: rest)).1, 1 + (digitGroups (c2 :: rest)).2) := by
  simp [digitGroups, hc, hc2]

/-- `digitGroups` on a digit, a separator, and a following digit. -/
theorem dg_dsep_digit {c c2 c3 : Char} (hc : c.isDigit = true)
    (hc2 : c2.isDigit = false) (hs : sepChar c2 = true) (h3 : c3.isDigit = true)
    (rest : List Char) :
    digitGroups (c :: c2 :: c3 :: rest) =
      (1 + (digitGroups (c3 :: rest)).1, 2 + (digitGroups (c3 :: rest)).2) := by
  simp [digitGroups, hc, hc2, hs, h3]

/-- `digitGroups` on a digit, a separator, and no following digit. -/
theorem dg_dsep_nodigit {c c2 c3 : Char} (hc : c.isDigit = true)
    (hc2 : c2.isDigit = false) (hs : sepChar c2 = true) (h3 : c3.isDigit = false)
    (rest : List Char) :
    digitGroups (c :: c2 :: c3 :: rest) = (1, 1) := by
  simp [digitGroups, hc, hc2, hs, h3]

/-- `digitGroups` on a digit followed by a non-digit non-separator. -/
theorem dg_dstop {c c2 : Char} (hc : c.isDigit = true)
    (hc2 : c2.isDigit = false) (hsn : sepChar c2 = false) (rest : List Char) :
    digitGroups (c :: c2 :: rest) = (1, 1) := by
  simp [digitGroups, hc, hc2, hsn]

/-- Cutting the tail at the placeholder's opening bracket never increases
the digit count of the consumed groups. -/
theorem dg_mono : ∀ (n : Nat) (a w wp : List Char), a.length ≤ n →
    (digitGroups (a ++ '[' :: w)).1 ≤ (digitGroups (a ++ wp)).1 := by
  intro n
  induction n with
  | zero =>
    intro a w wp hlen
    have ha : a = [] := List.eq_nil_of_length_eq_zero (Nat.le_zero.mp hlen)
    subst ha
    rw [List.nil_append, dg_head_not_digit (by decide)]
    exact Nat.zero_le _
  | succ n ih =>
    intro a w wp hlen
    match a with
    | [] =>
      rw [List.nil_append, dg_head_not_digit (by decide)]
      exact Nat.zero_le _
    | [c] =>
      by_cases hc : c.isDigit = true
      · simp only [List.cons_append, List.nil_append]
        rw [dg_dstop hc (by decide) (by decide) w]
        simpa using dg_pos hc wp
      · have hc' : c.isDigit = false := by simpa using hc
        simp only [List.cons_append, List.nil_append]
        rw [dg_head_not_digit hc', dg_head_not_digit hc']
    | c :: c2 :: a2 =>
      by_cases hc : c.isDigit = true
      · by_cases hc2 : c2.isDigit = true
        · have hrec := ih (c2 :: a2) w wp (by
            simp only [List.length_cons] at hlen ⊢
            omega)
          simp only [List.cons_append] at hrec ⊢
          rw [dg_dd hc hc2, dg_dd hc hc2]
          simpa using hrec
        · have hc2' : c2.isDigit = false := by simpa using hc2
          by_cases hs : sepChar c2 = true
          · cases a2 with
            | nil =>
              simp only [List.cons_append, List.nil_append]
              rw [dg_dsep_nodigit hc hc2' hs (by decide) w]
              simpa using dg_pos hc (c2 :: wp)
            | cons c3 a3 =>
              by_cases h3 : c3.isDigit = true
              · have hrec := ih (c3 :: a3) w wp (by
                  simp only [List.length_cons] at hlen ⊢
                  omega)
                simp only [List.cons_append] at hrec ⊢
                rw [dg_dsep_digit hc hc2' hs h3 (a3 ++ '[' :: w),
                  dg_dsep_digit hc hc2' hs h3 (a3 ++ wp)]
                simpa using hrec
              · have h3' : c3.isDigit = false := by simpa using h3
                simp only [List.cons_append]
                rw [dg_dsep_nodigit hc hc2' hs h3' (a3 ++ '[' :: w),
                  dg_dsep_nodigit hc hc2' hs h3' (a3 ++ wp)]
          · have hs' : sepChar c2 = false := by simpa using hs
            simp only [List.cons_append]
            rw [dg_dstop hc hc2' hs' (a2 ++ '[' :: w),
              dg_dstop hc hc2' hs' (a2 ++ wp)]
      · have hc' : c.isDigit = false := by simpa using hc
        simp only [List.cons_append]
        rw [dg_head_not_digit hc', dg_head_not_digit hc']

/-- `dg_mono` at the natural fuel. -/
theorem dg_mono' (a w wp : List Char) :
    (digitGroups (a ++ '[' :: w)).1 ≤ (digitGroups (a ++ wp)).1 :=
  dg_mono a.length a w wp (Nat.le_refl _)

/-- `sepThenGroups` on a separator head. -/
theorem stg_cons_sep {s : Char} (hs : sepChar s = true) (t : List Char) :
    sepThenGroups (s :: t) =
      if (digitGroups t).1 = 0 then (0, 0)
      else ((digitGroups t).1, (digitGroups t).2 + 1) := by
  simp [sepThenGroups, hs]

/-- `sepThenGroups` on a non-separator head. -/
theorem stg_cons_nosep {s : Char} (hs : sepChar s = false) (t : List Char) :
    sepThenGroups (s :: t) = digitGroups (s :: t) := by
  simp [sepThenGroups, hs]

/-- `dg_mono` for the optional-separator entry point. -/
theorem stg_mono (a w wp : List Char) :
    (sepThenGroups (a ++ '[' :: w)).1 ≤ (sepThenGroups (a ++ wp)).1 := by
  cases a with
  | nil =>
    rw [List.nil_append, stg_cons_nosep (by decide) w,
      dg_head_not_digit (by decide)]
    exact Nat.zero_le _
  | cons s a2 =>
    simp only [List.cons_append]
    by_cases hs : sepChar s = true
    · rw [stg_cons_sep hs, stg_cons_sep hs]
      have hm := dg_mono' a2 w wp
      by_cases h0 : (digitGroups (a2 ++ '[' :: w)).1 = 0
      · rw [if_pos h0]
        by_cases h0' : (digitGroups (a2 ++ wp)).1 = 0
        · rw [if_pos h0']
        · rw [if_neg h0']
          exact Nat.zero_le _
      · rw [if_neg h0, if_neg (by omega)]
        simpa using hm
    · have hs' : sepChar s = false := by simpa using hs
      rw [stg_cons_nosep hs', stg_cons_nosep hs']
      exact dg_mono' (s :: a2) w wp

/-- Extension property of the plus-free phone recognizer. -/
theorem phoneCore_ext (v w wp : List Char)
    (h : phoneCore (v ++ '[' :: w) ≠ none) : phoneCore (v ++ wp) ≠ none := by
  cases v with
  | nil =>
    exfalso
    apply h
    rw [List.nil_append]
    unfold phoneCore
    rw [dg_head_not_digit (by decide)]
    rfl
  | cons c v2 =>
    by_cases hc : c = '('
    · subst hc
      simp only [List.cons_append] at h ⊢
      have h' : (if ((v2 ++ '[' :: w).takeWhile Char.isDigit).isEmpty = true then
          none
        else
          match (v2 ++ '[' :: w).dropWhile Char.isDigit with
          | ')' :: r2 =>
            if 10 ≤ ((v2 ++ '[' :: w).takeWhile Char.isDigit).length +
                (sepThenGroups r2).1 then
              some (1 + ((v2 ++ '[' :: w).takeWhile Char.isDigit).length + 1 +
                (sepThenGroups r2).2)
            else none
          | _ => none) ≠ none := h
      show (if ((v2 ++ wp).takeWhile Char.isDigit).isEmpty = true then none
        else
          match (v2 ++ wp).dropWhile Char.isDigit with
          | ')' :: r2 =>
            if 10 ≤ ((v2 ++ wp).takeWhile Char.isDigit).length +
                (sepThenGroups r2).1 then
              some (1 + ((v2 ++ wp).takeWhile Char.isDigit).length + 1 +
                (sepThenGroups r2).2)
            else none
          | _ => none) ≠ none
      cases hall : v2.all Char.isDigit with
      | true =>
        exfalso
        apply h'
        have htw : (v2 ++ '[' :: w).takeWhile Char.isDigit = v2 := by
          rw [tw_append_pos _ hall, List.takeWhile_cons]
          simp [show ('[').isDigit = false from by decide]
        have hdw : (v2 ++ '[' :: w).dropWhile Char.isDigit = '[' :: w := by
          rw [dw_append_pos _ hall, List.dropWhile_cons]
          simp [show ('[').isDigit = false from by decide]
        rw [htw, hdw]
        by_cases hv2 : v2.isEmpty = true
        · rw [if_pos hv2]
        · rw [if_neg hv2]
          rfl
      | false =>
        obtain ⟨x, v3, hdw0, hx⟩ := dw_cons_of_all_false hall
        have htw1 : (v2 ++ '[' :: w).takeWhile Char.isDigit =
            v2.takeWhile Char.isDigit := tw_append_neg _ hall
        have htw2 : (v2 ++ wp).takeWhile Char.isDigit =
            v2.takeWhile Char.isDigit := tw_append_neg _ hall
        have hdw1 : (v2 ++ '[' :: w).dropWhile Char.isDigit =
            x :: (v3 ++ '[' :: w) := by
          rw [dw_append_neg _ hall, hdw0]
          simp
        have hdw2 : (v2 ++ wp).dropWhile Char.isDigit = x :: (v3 ++ wp) := by
          rw [dw_append_neg _ hall, hdw0]
          simp
        rw [htw1, hdw1] at h'
        rw [htw2, hdw2]
        by_cases hemp : (v2.takeWhile Char.isDigit).isEmpty = true
        · rw [if_pos hemp] at h'
          exact absurd rfl h'
        · rw [if_neg hemp] at h'
          rw [if_neg hemp]
          by_cases hxp : x = ')'
          · subst hxp
            have h'' : (if 10 ≤ (v2.takeWhile Char.isDigit).length +
                  (sepThenGroups (v3 ++ '[' :: w)).1 then
                some (1 + (v2.takeWhile Char.isDigit).length + 1 +
                  (sepThenGroups (v3 ++ '[' :: w)).2)
              else none) ≠ none := h'
            show (if 10 ≤ (v2.takeWhile Char.isDigit).length +
                  (sepThenGroups (v3 ++ wp)).1 then
                some (1 + (v2.takeWhile Char.isDigit).length + 1 +
                  (sepThenGroups (v3 ++ wp)).2)
              else none) ≠ none
            by_cases hten : 10 ≤ (v2.takeWhile Char.isDigit).length +
                (sepThenGroups (v3 ++ '[' :: w)).1
            · have := stg_mono v3 w wp
              rw [if_pos (by omega)]
              simp
            · rw [if_neg hten] at h''
              exact absurd rfl h''
          · exfalso
            apply h'
            split
            · rename_i r2 heq
              injection heq with h1 _
              exact absurd h1 hxp
            · rfl
    · have hsplit1 : (c :: v2) ++ '[' :: w = c :: (v2 ++ '[' :: w) := rfl
      have hsplit2 : (c :: v2) ++ wp = c :: (v2 ++ wp) := rfl
      rw [hsplit1] at h
      rw [hsplit2]
      unfold phoneCore at h ⊢
      split at h
      · rename_i r heq
        injection heq with h1 _
        exact absurd h1 hc
      · split
        · rename_i r heq
          injection heq with h1 _
          exact absurd h1 hc
        · by_cases h0 : (digitGroups (c :: (v2 ++ '[' :: w))).1 = 0
          · rw [if_pos h0] at h
            exact absurd rfl h
          · rw [if_neg h0] at h
            by_cases hten : 10 ≤ (digitGroups (c :: (v2 ++ '[' :: w))).1
            · have hm : (digitGroups (c :: (v2 ++ '[' :: w))).1 ≤
                  (digitGroups (c :: (v2 ++ wp))).1 := by
                have := dg_mono' (c :: v2) w wp
                simpa using this
              rw [if_neg (by omega), if_pos (by omega)]
              simp
            · rw [if_neg hten] at h
              exact absurd rfl h

/-- Extension property of the phone recognizer. -/
theorem phoneMatch_ext (v w wp : List Char)
    (h : phoneMatch (v ++ '[' :: w) ≠ none) : phoneMatch (v ++ wp) ≠ none := by
  cases v with
  | nil =>
    exfalso
    apply h
    rw [List.nil_append]
    unfold phoneMatch phoneCore
    rw [dg_head_not_digit (by decide)]
    rfl
  | cons c v2 =>
    by_cases hc : c = '+'
    · subst hc
      simp only [List.cons_append] at h ⊢
      have h0 : (phoneCore (v2 ++ '[' :: w)).map (· + 1) ≠ none := h
      have h' : phoneCore (v2 ++ '[' :: w) ≠ none := by
        intro hcore
        apply h0
        rw [hcore]
        rfl
      have hres := phoneCore_ext v2 w wp h'
      show (phoneCore (v2 ++ wp)).map (· + 1) ≠ none
      intro hc2
      apply hres
      cases hcs : phoneCore (v2 ++ wp) with
      | none => rfl
      | some n =>
        rw [hcs] at hc2
        cases hc2
    · simp only [List.cons_append] at h ⊢
      unfold phoneMatch at h ⊢
      split at h
      · rename_i r heq
        injection heq with h1 _
        exact absurd h1 hc
      · split
        · rename_i r heq
          injection heq with h1 _
          exact absurd h1 hc
        · exact phoneCore_ext (c :: v2) w wp (by simpa using h)

/-- No phone occurrence starts at a character that is not a digit, `+`, or
`(`. -/
theorem phoneMatch_none_of_head (c : Char) (h1 : c ≠ '+') (h2 : c ≠ '(')
    (h3 : c.isDigit = false) (t : List Char) : phoneMatch (c :: t) = none := by
  unfold phoneMatch
  split
  · rename_i r heq
    injection heq with hx _
    exact absurd hx h1
  · unfold phoneCore
    split
    · rename_i r heq
      injection heq with hx _
      exact absurd hx h2
    · rw [dg_head_not_digit h3]
      rfl

/-- The phone recognizer never fires inside the phone placeholder. -/
theorem phoneInert :
    ∀ i t, i < replPhone.length → phoneMatch (replPhone.drop i ++ t) = none := by
  intro i t hi
  have hi' : i < 22 := by simpa [replPhone] using hi
  interval_cases i <;>
    exact phoneMatch_none_of_head _ (by decide) (by decide) (by decide) _

/-- C8: each of the three PII redaction passes is idempotent on every body
text — applying it twice equals applying it once — and each pass replaces
every independent occurrence within one body, as the multi-occurrence
evaluations show. -/
theorem c8_redactors_idempotent :
    (∀ s : String, removeLinks (removeLinks s) = removeLinks s) ∧
    (∀ s : String, removeEmails (removeEmails s) = removeEmails s) ∧
    (∀ s : String, removePhoneNumbers (removePhoneNumbers s) = removePhoneNumbers s) ∧
    removeLinks "Multiple links: http://a.com and https://b.com" =
      "Multiple links: [link removed] and [link removed]" ∧
    removeEmails "Multiple: a@b.com b@c.net c@d.org" =
      "Multiple: [email removed] [email removed] [email removed]" ∧
    removePhoneNumbers "Phone: 555-123-4567, Alt: (555) 123-4567" =
      "Phone: [phone number removed], Alt: [phone number removed]" := by
  refine ⟨?_, ?_, ?_, by decide, by decide, by decide⟩
  · intro s
    exact congrArg String.mk (scanRedact_idem linkMatch '['
      ['l', 'i', 'n', 'k', ' ', 'r', 'e', 'm', 'o', 'v', 'e', 'd', ']']
      linkMatch_nil linkInert linkMatch_ext s.data)
  · intro s
    exact congrArg String.mk (scanRedact_idem emailMatch '['
      ['e', 'm', 'a', 'i', 'l', ' ', 'r', 'e', 'm', 'o', 'v', 'e', 'd', ']']
      emailMatch_nil emailInert emailMatch_ext s.data)
  · intro s
    exact congrArg String.mk (scanRedact_idem phoneMatch '['
      ['p', 'h', 'o', 'n', 'e', ' ', 'n', 'u', 'm', 'b', 'e', 'r', ' ',
       'r', 'e', 'm', 'o', 'v', 'e', 'd', ']']
      phoneMatch_nil phoneInert phoneMatch_ext s.data)

end ZillowCommenter
